import Mathlib

/-!
Shallow embedding of the block-streaming execution core of
`dbms/src/DataStreams/IBlockInputStream.h` and of the aggregate-function
factory entry `dbms/src/AggregateFunctions/AggregateFunctionEntropy.cpp`.

The header `IBlockInputStream.h` is the authoritative source for every
member it defines inline (`setLimits`, `setQuota`, `enableExtremes`,
`addTotalRowsApprox`, `progress`, `checkDepth`, the `LocalLimits`
structure, the `NDEBUG`-gated protocol-tracking flags).  The out-of-line
member bodies (`read`, `readPrefix`, `cancel`, `getTotals`, `getExtremes`,
`checkDepthImpl`, `progressImpl`) live in `IBlockInputStream.cpp`, which is
not part of the examined sources; those are modelled from the
specification and marked as such in their doc comments.

Machine integers are modelled as `Nat`: every quantity involved (row
counts, byte counts, microsecond durations) is non-negative and no
counter in the modelled scenarios approaches 2^64, so overflow wrapping
is irrelevant to the stated properties.
-/

/-- Error kinds of the streaming core (spec section 7) together with the
two error codes used by the entropy factory source file. -/
inductive ErrorKind where
  | ProtocolViolation
  | QueryCancelled
  | OutputNotSorted
  | ResourceLimitExceeded
  | ExecutionTooSlow
  | PipelineTooDeep
  | NumberOfArgumentsDoesntMatch
  | AggregateFunctionDoesntAllowParameters
deriving Repr, DecidableEq

/-- Overflow action of a limit (`OverflowMode` in `SizeLimits.h`, not under
the examined sources): `THROW` fails the query, `BREAK` silently stops. -/
inductive OverflowMode where
  | THROW
  | BREAK
deriving Repr, DecidableEq

/-- `IBlockInputStream::LimitsMode` (header lines 197-201). -/
inductive LimitsMode where
  | LIMITS_CURRENT
  | LIMITS_TOTAL
deriving Repr, DecidableEq

/-- Modelled from the spec: `SizeLimits` (its own header is not among the
examined sources): a size ceiling on rows and bytes, `0` meaning
unlimited, with an overflow action. -/
structure SizeLimits where
  max_rows : Nat := 0
  max_bytes : Nat := 0
  overflow_mode : OverflowMode := OverflowMode.THROW
deriving Repr, DecidableEq

/-- `IBlockInputStream::LocalLimits` (header lines 204-217).  Note that the
minimum-execution-speed fields carry no overflow-mode of their own:
`timeout_overflow_mode` belongs to `max_execution_time` only.  Durations
are in microseconds. -/
structure LocalLimits where
  mode : LimitsMode := LimitsMode.LIMITS_CURRENT
  size_limits : SizeLimits := {}
  max_execution_time : Nat := 0
  timeout_overflow_mode : OverflowMode := OverflowMode.THROW
  min_execution_speed : Nat := 0
  timeout_before_checking_execution_speed : Nat := 0
deriving Repr, DecidableEq

/-- A block: a batch of rows with a schema (ordered column names; the
column values themselves are irrelevant to every property proved here).
As in `Core/Block.h`, a block converts to `true` exactly when it has
columns; the column-free block is the end-of-stream sentinel. -/
structure Block where
  schema : List String
  rows : Nat
  bytes : Nat
deriving Repr, DecidableEq

/-- The end-of-stream sentinel: a block without columns. -/
def Block.empty : Block := ⟨[], 0, 0⟩

/-- `Block::operator bool`: a block is truthy iff it has columns. -/
def Block.toBool (b : Block) : Bool := !b.schema.isEmpty

/-- One invocation of the progress callback (`ProgressCallback`, header
line 39): which node fired it and the row/byte deltas it carried. -/
structure Progress where
  source : String
  rows : Nat
  bytes : Nat
deriving Repr, DecidableEq

/-- `BlockStreamProfileInfo`: the per-node counters updated after each
produced block. -/
structure BlockStreamProfileInfo where
  rows : Nat := 0
  bytes : Nat := 0
  blocks : Nat := 0
deriving Repr, DecidableEq

/-- The mutable per-node state of an `IBlockInputStream` (header lines
241-321).  The progress callback and the process-list element are
modelled by their presence, the quota by an opaque handle identity; the
`NDEBUG`-gated tracking flags are modelled unconditionally here and
consulted only when the `debug` parameter of an operation is set, which
mirrors their absence from release builds. -/
structure StreamState where
  info : BlockStreamProfileInfo := {}
  is_cancelled : Bool := false
  is_killed : Bool := false
  has_progress_callback : Bool := false
  has_process_list_elem : Bool := false
  limits : LocalLimits := {}
  quota : Option Nat := none
  enabled_extremes : Bool := false
  limit_exceeded_need_break : Bool := false
  totals : Block := Block.empty
  extremes : Block := Block.empty
  total_rows_approx : Nat := 0
  read_prefix_is_called : Bool := false
  read_suffix_is_called : Bool := false
deriving Repr, DecidableEq

/-- The two concrete operator shapes used to instantiate the abstract
`readImpl`: a `source` emits the blocks of its script in order, a
`concat` exhausts its children in list order (the shape of
`ConcatBlockInputStream`).  Every property about the base-class logic is
proved uniformly in the operator where possible. -/
inductive OpKind where
  | source
  | concat
deriving Repr, DecidableEq

/-- An `IBlockInputStream` node: operator kind, display name, declared
header (schema), mutable state, pending `readImpl` outputs (for a
`source`), and the owned children. -/
inductive IBlockInputStream where
  | mk (op : OpKind) (name : String) (header : List String)
       (st : StreamState) (script : List Block)
       (children : List IBlockInputStream)

namespace IBlockInputStream

def opKind : IBlockInputStream → OpKind
  | .mk op _ _ _ _ _ => op

/-- `getName` (header line 60). -/
def getName : IBlockInputStream → String
  | .mk _ nm _ _ _ _ => nm

def headerOf : IBlockInputStream → List String
  | .mk _ _ hd _ _ _ => hd

/-- `getHeader` (header lines 62-66): the declared structure of every
block the node produces, as a block with columns and no rows. -/
def getHeader (s : IBlockInputStream) : Block := ⟨s.headerOf, 0, 0⟩

def state : IBlockInputStream → StreamState
  | .mk _ _ _ st _ _ => st

def script : IBlockInputStream → List Block
  | .mk _ _ _ _ sc _ => sc

def children : IBlockInputStream → List IBlockInputStream
  | .mk _ _ _ _ _ ch => ch

/-- `getLimits` (header lines 225-228). -/
def getLimits (s : IBlockInputStream) : LocalLimits := s.state.limits

/-- `setLimits` (header lines 219-223): `limits = limits_;` — it assigns
this node's own field and nothing else. -/
def setLimits (l : LocalLimits) : IBlockInputStream → IBlockInputStream
  | .mk op nm hd st sc ch => .mk op nm hd { st with limits := l } sc ch

/-- `setQuota` (header lines 230-236): `quota = &quota_;` — it stores the
handle on this node only. -/
def setQuota (q : Nat) : IBlockInputStream → IBlockInputStream
  | .mk op nm hd st sc ch => .mk op nm hd { st with quota := some q } sc ch

/-- `enableExtremes` (header line 239): `enabled_extremes = true;` on this
node only. -/
def enableExtremes : IBlockInputStream → IBlockInputStream
  | .mk op nm hd st sc ch => .mk op nm hd { st with enabled_extremes := true } sc ch

/-- `addTotalRowsApprox` (header line 175): `total_rows_approx += value;`. -/
def addTotalRowsApprox (v : Nat) : IBlockInputStream → IBlockInputStream
  | .mk op nm hd st sc ch =>
      .mk op nm hd { st with total_rows_approx := st.total_rows_approx + v } sc ch

end IBlockInputStream

mutual

/-- Modelled from the spec: `cancel(kill)` (declared at header line 185,
body in the missing `.cpp`): sets `is_cancelled` (and `is_killed` when
`kill`), then recurses into every child in list order. -/
def IBlockInputStream.cancel (kill : Bool) : IBlockInputStream → IBlockInputStream
  | .mk op nm hd st sc ch =>
      .mk op nm hd
        { st with is_cancelled := true, is_killed := st.is_killed || kill }
        sc (cancelChildren kill ch)

/-- Child fan-out of `cancel`, in list order. -/
def cancelChildren (kill : Bool) : List IBlockInputStream → List IBlockInputStream
  | [] => []
  | c :: cs => IBlockInputStream.cancel kill c :: cancelChildren kill cs

end

mutual

/-- Modelled from the spec: `setProgressCallback` (declared at header line
146, body in the missing `.cpp`): stores the callback on this node and
fans out recursively to every already-attached child. -/
def IBlockInputStream.setProgressCallback : IBlockInputStream → IBlockInputStream
  | .mk op nm hd st sc ch =>
      .mk op nm hd { st with has_progress_callback := true } sc
        (setProgressCallbackChildren ch)

/-- Child fan-out of `setProgressCallback`, in list order. -/
def setProgressCallbackChildren : List IBlockInputStream → List IBlockInputStream
  | [] => []
  | c :: cs => IBlockInputStream.setProgressCallback c :: setProgressCallbackChildren cs

end

mutual

/-- Modelled from the spec: `setProcessListElement` (declared at header
line 171, body in the missing `.cpp`): stores the accounting handle on
this node and fans out recursively to every already-attached child. -/
def IBlockInputStream.setProcessListElement : IBlockInputStream → IBlockInputStream
  | .mk op nm hd st sc ch =>
      .mk op nm hd { st with has_process_list_elem := true } sc
        (setProcessListElementChildren ch)

/-- Child fan-out of `setProcessListElement`, in list order. -/
def setProcessListElementChildren : List IBlockInputStream → List IBlockInputStream
  | [] => []
  | c :: cs =>
      IBlockInputStream.setProcessListElement c :: setProcessListElementChildren cs

end

mutual

/-- Modelled from the spec: the default `readPrefix` (declared at header
line 101, body in the missing `.cpp`): records that the prefix has been
called (state the header keeps only in debug builds), runs the node's own
prefix hook, then recurses into every child in list order. -/
def IBlockInputStream.readPrefixCall : IBlockInputStream → IBlockInputStream
  | .mk op nm hd st sc ch =>
      .mk op nm hd { st with read_prefix_is_called := true } sc
        (readPrefixChildren ch)

/-- Child fan-out of the default `readPrefix`, in list order. -/
def readPrefixChildren : List IBlockInputStream → List IBlockInputStream
  | [] => []
  | c :: cs => IBlockInputStream.readPrefixCall c :: readPrefixChildren cs

end

mutual

/-- Modelled from the spec: the longest root-to-leaf chain length computed
by `checkDepthImpl`; a node with no children has depth 1. -/
def IBlockInputStream.depth : IBlockInputStream → Nat
  | .mk _ _ _ _ _ ch => 1 + depthChildren ch

/-- Largest depth among a list of children (0 for an empty list). -/
def depthChildren : List IBlockInputStream → Nat
  | [] => 0
  | c :: cs => max (IBlockInputStream.depth c) (depthChildren cs)

end

/-- Modelled from the spec: `checkDepthImpl` (declared at header line 302,
body in the missing `.cpp`): fails with `PipelineTooDeep` when the longest
root-to-leaf chain exceeds `max_depth`, else returns the measured depth. -/
def IBlockInputStream.checkDepthImpl (max_depth _level : Nat)
    (s : IBlockInputStream) : Except ErrorKind Nat :=
  if s.depth > max_depth then .error .PipelineTooDeep else .ok s.depth

/-- `checkDepth` (header line 117): `checkDepthImpl(max_depth, max_depth)`. -/
def IBlockInputStream.checkDepth (max_depth : Nat) (s : IBlockInputStream) :
    Except ErrorKind Nat :=
  s.checkDepthImpl max_depth max_depth

mutual

/-- Modelled from the spec: `getTotals` (declared at header line 133, body
in the missing `.cpp`): return this node's own totals block when
non-empty, otherwise the first non-empty result among the children in
list order (the early-exit traversal of `forEachChild`, header lines
307-316), otherwise the empty block. -/
def IBlockInputStream.getTotals : IBlockInputStream → Block
  | .mk _ _ _ st _ ch =>
      if st.totals.toBool then st.totals else getTotalsChildren ch

/-- First non-empty `getTotals` among children, in list order. -/
def getTotalsChildren : List IBlockInputStream → Block
  | [] => Block.empty
  | c :: cs =>
      let r := IBlockInputStream.getTotals c
      if r.toBool then r else getTotalsChildren cs

end

mutual

/-- Modelled from the spec: `getExtremes` (declared at header line 136,
body in the missing `.cpp`): same first-non-empty traversal as
`getTotals`, over the extremes blocks. -/
def IBlockInputStream.getExtremes : IBlockInputStream → Block
  | .mk _ _ _ st _ ch =>
      if st.extremes.toBool then st.extremes else getExtremesChildren ch

/-- First non-empty `getExtremes` among children, in list order. -/
def getExtremesChildren : List IBlockInputStream → Block
  | [] => Block.empty
  | c :: cs =>
      let r := IBlockInputStream.getExtremes c
      if r.toBool then r else getExtremesChildren cs

end

/-- Modelled from the spec: `progressImpl` (declared at header line 162,
body in the missing `.cpp`), restricted to its observable effect on the
progress callback: when a callback is attached, it is invoked once with
the node's name and the row/byte deltas of the produced block. -/
def IBlockInputStream.progressImpl (s : IBlockInputStream) (rows bytes : Nat) :
    List Progress :=
  if s.state.has_progress_callback then [⟨s.getName, rows, bytes⟩] else []

/-- The default `progress` dispatch (header lines 155-160, inline in the
source): data for progress is taken from leaf sources only —
`if (children.empty()) progressImpl(value);`. -/
def IBlockInputStream.progress (s : IBlockInputStream) (rows bytes : Nat) :
    List Progress :=
  if s.children.isEmpty then s.progressImpl rows bytes else []

/-- Modelled from the spec: the exceeded test of `SizeLimits::check`
(`SizeLimits.h` is not among the examined sources): a ceiling of 0 means
unlimited, otherwise the cumulative counter must not exceed it. -/
def SizeLimits.exceeded (sl : SizeLimits) (rows bytes : Nat) : Bool :=
  (sl.max_rows != 0 && rows > sl.max_rows)
    || (sl.max_bytes != 0 && bytes > sl.max_bytes)

/-- Modelled from the spec: the execution-time ceiling test of
`checkTimeLimit` (header line 299, body in the missing `.cpp`). -/
def LocalLimits.timeExceeded (lim : LocalLimits) (elapsed_us : Nat) : Bool :=
  lim.max_execution_time != 0 && elapsed_us > lim.max_execution_time

/-- Modelled from the spec: the minimum-execution-speed test — once past
the warm-up duration, measured rows per second must not fall below the
configured minimum.  `rows / (elapsed_us / 10^6) < min` is stated
division-free as `rows * 10^6 < min * elapsed_us`. -/
def LocalLimits.speedTooSlow (lim : LocalLimits) (rows elapsed_us : Nat) : Bool :=
  lim.min_execution_speed != 0
    && elapsed_us > lim.timeout_before_checking_execution_speed
    && rows * 1000000 < lim.min_execution_speed * elapsed_us

/-- Modelled from the spec: `updateExtremes` (declared at header line 294,
body in the missing `.cpp`), abstracted to its shape: the running
extremes block has the produced block's schema and two rows (row 0 the
minimums, row 1 the maximums; the column values are not modelled). -/
def updateExtremesBlock (b : Block) : Block := ⟨b.schema, 2, 0⟩

/-- Result of one `read` call: the outcome (a block or an error), the
stream afterwards, and the progress-callback invocations it caused. -/
structure ReadResult where
  res : Except ErrorKind Block
  stream : IBlockInputStream
  events : List Progress

/-- `ProfileInfo` update on a produced block: add the row/byte deltas and
count the block. -/
def infoUpdated (st : StreamState) (b : Block) : StreamState :=
  { st with info := ⟨st.info.rows + b.rows, st.info.bytes + b.bytes,
                     st.info.blocks + 1⟩ }

/-- Whether the size ceiling is exceeded by this node's own cumulative
counters — checked only in `LIMITS_CURRENT` mode (header lines 190-196). -/
def sizeCheckHit (st : StreamState) : Bool :=
  st.limits.mode == LimitsMode.LIMITS_CURRENT
    && st.limits.size_limits.exceeded st.info.rows st.info.bytes

/-- Raise `limit_exceeded_need_break` when the condition holds: the next
`read` call will then return the sentinel (header lines 272-273). -/
def setBreakIf (c : Bool) (st : StreamState) : StreamState :=
  if c then { st with limit_exceeded_need_break := true } else st

/-- Fold a produced block into the running extremes when enabled. -/
def foldExtremes (b : Block) (st : StreamState) : StreamState :=
  if st.enabled_extremes then { st with extremes := updateExtremesBlock b }
  else st

/-- Speed, quota and extremes stage of the after-production checks: a
too-slow throughput fails with `ExecutionTooSlow` (no overflow action
exists for it), an exceeded quota is treated like a thrown size
violation, and otherwise the block is returned after the extremes fold. -/
def afterSpeed (e : Nat) (q : Bool) (op : OpKind) (nm : String)
    (hd : List String) (st3 : StreamState) (sc2 : List Block)
    (ch2 : List IBlockInputStream) (evs : List Progress) (b : Block) :
    ReadResult :=
  if st3.limits.speedTooSlow st3.info.rows e then
    ⟨.error .ExecutionTooSlow, .mk op nm hd st3 sc2 ch2, evs⟩
  else if st3.quota.isSome && !q then
    ⟨.error .ResourceLimitExceeded, .mk op nm hd st3 sc2 ch2, evs⟩
  else
    ⟨.ok b, .mk op nm hd (foldExtremes b st3) sc2 ch2, evs⟩

/-- Time stage of the after-production checks: past the execution-time
ceiling, apply `timeout_overflow_mode` — `THROW` fails with
`ResourceLimitExceeded`, `BREAK` sets the stop flag and continues. -/
def afterTime (e : Nat) (q : Bool) (op : OpKind) (nm : String)
    (hd : List String) (st2 : StreamState) (sc2 : List Block)
    (ch2 : List IBlockInputStream) (evs : List Progress) (b : Block) :
    ReadResult :=
  if st2.limits.timeExceeded e
      && st2.limits.timeout_overflow_mode == OverflowMode.THROW then
    ⟨.error .ResourceLimitExceeded, .mk op nm hd st2 sc2 ch2, evs⟩
  else afterSpeed e q op nm hd (setBreakIf (st2.limits.timeExceeded e) st2)
    sc2 ch2 evs b

/-- Size stage of the after-production checks: past the size ceiling (in
current-stream mode), apply the size overflow mode — `THROW` fails with
`ResourceLimitExceeded`, `BREAK` sets the stop flag and continues; the
block in hand is never discarded. -/
def afterSize (e : Nat) (q : Bool) (op : OpKind) (nm : String)
    (hd : List String) (st1 : StreamState) (sc2 : List Block)
    (ch2 : List IBlockInputStream) (evs : List Progress) (b : Block) :
    ReadResult :=
  if sizeCheckHit st1
      && st1.limits.size_limits.overflow_mode == OverflowMode.THROW then
    ⟨.error .ResourceLimitExceeded, .mk op nm hd st1 sc2 ch2, evs⟩
  else afterTime e q op nm hd (setBreakIf (sizeCheckHit st1) st1) sc2 ch2 evs b

/-- Modelled from the spec: steps 4-5 of the `read` contract, applied to a
non-sentinel candidate block `b` obtained from the production step
(`sc2`/`ch2` are the script and children after that step, `evs0` the
progress events it already caused in children): update `ProfileInfo`;
forward progress through the default leaf-only `progress` dispatch; then
run the size, time, speed and quota checks of the stages above — a
`THROW` overflow fails with `ResourceLimitExceeded`, a `BREAK` overflow
sets `limit_exceeded_need_break` so that the NEXT call returns the
sentinel, the block in hand being returned regardless; a too-slow speed
fails with `ExecutionTooSlow`; an exceeded quota is treated like a thrown
size violation; finally the block is folded into the running extremes
when enabled. -/
def afterProduce (elapsed_us : Nat) (quota_ok : Bool) (op : OpKind)
    (nm : String) (hd : List String) (st : StreamState) (sc2 : List Block)
    (ch2 : List IBlockInputStream) (evs0 : List Progress) (b : Block) :
    ReadResult :=
  afterSize elapsed_us quota_ok op nm hd (infoUpdated st b) sc2 ch2
    (evs0 ++ (IBlockInputStream.mk op nm hd (infoUpdated st b) sc2
      ch2).progress b.rows b.bytes) b

mutual

/-- Modelled from the spec: `read` (declared at header line 88, body in
the missing `.cpp`).  `debug` states whether the build keeps the
`NDEBUG`-gated protocol-tracking flags (header lines 318-321); when it
does, a `read` before `readPrefix` is rejected with `ProtocolViolation`.
Then, per the spec's contract: fail with `QueryCancelled` when killed;
return the sentinel without invoking the production step when
soft-cancelled or when a previous limit check set
`limit_exceeded_need_break`; otherwise run the production step exactly
once (a `source` pops its script, a `concat` pulls from its children in
list order) and, for a non-sentinel candidate, the bookkeeping and checks
of `afterProduce`.  `elapsed_us` is the stopwatch reading at this call
and `quota_ok` the verdict of the external quota's `tryConsume`. -/
def IBlockInputStream.read (debug : Bool) (elapsed_us : Nat) (quota_ok : Bool) :
    IBlockInputStream → ReadResult
  | .mk op nm hd st sc ch =>
    if debug && !st.read_prefix_is_called then
      ⟨.error .ProtocolViolation, .mk op nm hd st sc ch, []⟩
    else if st.is_killed then
      ⟨.error .QueryCancelled, .mk op nm hd st sc ch, []⟩
    else if st.is_cancelled || st.limit_exceeded_need_break then
      ⟨.ok Block.empty, .mk op nm hd st sc ch, []⟩
    else
      match op with
      | .source =>
        match sc with
        | [] => ⟨.ok Block.empty, .mk op nm hd st [] ch, []⟩
        | b :: rest =>
          if b.toBool then afterProduce elapsed_us quota_ok op nm hd st rest ch [] b
          else ⟨.ok b, .mk op nm hd st rest ch, []⟩
      | .concat =>
        match readChildren debug elapsed_us quota_ok ch with
        | ⟨.error e, ch2, evs⟩ => ⟨.error e, .mk op nm hd st sc ch2, evs⟩
        | ⟨.ok b, ch2, evs⟩ =>
          if b.toBool then afterProduce elapsed_us quota_ok op nm hd st sc ch2 evs b
          else ⟨.ok b, .mk op nm hd st sc ch2, evs⟩

/-- The production step of a `concat`: pull from the children in list
order, skipping exhausted ones; the first non-sentinel child block is the
candidate, a child error propagates unmodified, and when every child is
exhausted the result is the sentinel. -/
def readChildren (debug : Bool) (elapsed_us : Nat) (quota_ok : Bool) :
    List IBlockInputStream →
      Except ErrorKind Block × List IBlockInputStream × List Progress
  | [] => ⟨.ok Block.empty, [], []⟩
  | c :: cs =>
    match IBlockInputStream.read debug elapsed_us quota_ok c with
    | ⟨.error e, c2, evs⟩ => ⟨.error e, c2 :: cs, evs⟩
    | ⟨.ok b, c2, evs⟩ =>
      if b.toBool then ⟨.ok b, c2 :: cs, evs⟩
      else
        match readChildren debug elapsed_us quota_ok cs with
        | ⟨r, cs2, evs2⟩ => ⟨r, c2 :: cs2, evs ++ evs2⟩

end

/-- Drive a stream like the external executor: call `read` repeatedly
(with the given fuel as a bound) until a sentinel or an error, collecting
the returned non-sentinel blocks and every progress-callback
invocation. -/
def drive (debug : Bool) (elapsed_us : Nat) (quota_ok : Bool) :
    Nat → IBlockInputStream → List Block × IBlockInputStream × List Progress
  | 0, n => ([], n, [])
  | fuel + 1, n =>
    match IBlockInputStream.read debug elapsed_us quota_ok n with
    | ⟨.error _, n2, evs⟩ => ([], n2, evs)
    | ⟨.ok b, n2, evs⟩ =>
      if b.toBool then
        match drive debug elapsed_us quota_ok fuel n2 with
        | (bs, n3, evs2) => (b :: bs, n3, evs ++ evs2)
      else ([], n2, evs)

/-- The production step of `read` in isolation (the `readImpl` dispatch):
what block the node's own step 3 yields, the script and children
afterwards, and the progress events caused inside children.  `read` on a
clean state is exactly this step followed by `afterProduce`. -/
def produceStep (debug : Bool) (elapsed_us : Nat) (quota_ok : Bool)
    (op : OpKind) (sc : List Block) (ch : List IBlockInputStream) :
    Except ErrorKind Block × List Block × List IBlockInputStream × List Progress :=
  match op with
  | .source =>
    match sc with
    | [] => (.ok Block.empty, [], ch, [])
    | b :: rest => (.ok b, rest, ch, [])
  | .concat =>
    match readChildren debug elapsed_us quota_ok ch with
    | (r, ch2, evs) => (r, sc, ch2, evs)

mutual

/-- The operator contract the header documents for `read` ("It is
guaranteed that method read returns blocks of exactly that structure"),
phrased on the embedded operators: every non-sentinel block of a source's
script carries the declared header, and the children of a `concat` all
declare its own header; recursively so in the whole subtree. -/
def wfStream : IBlockInputStream → Bool
  | .mk op _ hd _ sc ch =>
      sc.all (fun b => !b.toBool || b.schema == hd)
      && (match op with
          | .source => true
          | .concat => ch.all (fun c => c.headerOf == hd))
      && wfChildren ch

/-- `wfStream` for every stream of a list. -/
def wfChildren : List IBlockInputStream → Bool
  | [] => true
  | c :: cs => wfStream c && wfChildren cs

end

mutual

/-- No node of the subtree carries a non-empty totals block. -/
def noTotals : IBlockInputStream → Bool
  | .mk _ _ _ st _ ch => !st.totals.toBool && noTotalsChildren ch

/-- `noTotals` for every stream of a list. -/
def noTotalsChildren : List IBlockInputStream → Bool
  | [] => true
  | c :: cs => noTotals c && noTotalsChildren cs

end

mutual

/-- No node of the subtree carries a non-empty extremes block. -/
def noExtremes : IBlockInputStream → Bool
  | .mk _ _ _ st _ ch => !st.extremes.toBool && noExtremesChildren ch

/-- `noExtremes` for every stream of a list. -/
def noExtremesChildren : List IBlockInputStream → Bool
  | [] => true
  | c :: cs => noExtremes c && noExtremesChildren cs

end

/-! Concrete fixtures used by the scenario parts of the claims. -/

/-- A one-column block of `r` rows (10 bytes per row). -/
def blkRows (r : Nat) : Block := ⟨["x"], r, 10 * r⟩

/-- Leaf `A` of the progress scenario: 5 blocks of 100 rows. -/
def leafA : IBlockInputStream :=
  .mk .source "A" ["x"] {} (List.replicate 5 (blkRows 100)) []

/-- Leaf `B` of the progress scenario: 3 blocks of 50 rows. -/
def leafB : IBlockInputStream :=
  .mk .source "B" ["x"] {} (List.replicate 3 (blkRows 50)) []

/-- The progress scenario tree: a root with children `[A, B]`, the
callback registered on the root and fanned out at set-time. -/
def progressTree : IBlockInputStream :=
  IBlockInputStream.setProgressCallback (.mk .concat "root" ["x"] {} [] [leafA, leafB])

/-- The progress-scenario tree after `i` blocks of `A` and `j` blocks of
`B` have been pulled through the root (`i` at most 5, `j` at most 3): the
intermediate states of the drive, written out. -/
def c5mid (i j : Nat) : IBlockInputStream :=
  .mk .concat "root" ["x"]
    { info := ⟨100 * i + 50 * j, 1000 * i + 500 * j, i + j⟩,
      has_progress_callback := true } []
    [.mk .source "A" ["x"]
      { info := ⟨100 * i, 1000 * i, i⟩, has_progress_callback := true }
      (List.replicate (5 - i) (blkRows 100)) [],
     .mk .source "B" ["x"]
      { info := ⟨50 * j, 500 * j, j⟩, has_progress_callback := true }
      (List.replicate (3 - j) (blkRows 50)) []]

/-- The limits of the row-ceiling scenario: ceiling of 250 rows, stop
("break") overflow action, current-stream mode. -/
def stopLimits : LocalLimits :=
  { size_limits := { max_rows := 250, max_bytes := 0,
                     overflow_mode := OverflowMode.BREAK } }

/-- The row-ceiling scenario: a limited wrapper over a leaf yielding 3
blocks of 100 rows. -/
def stopScenarioRoot : IBlockInputStream :=
  .mk .concat "limited" ["x"] { limits := stopLimits } []
    [.mk .source "leaf" ["x"] {} (List.replicate 3 (blkRows 100)) []]

/-- The wrapper state of the row-ceiling scenario right before the third
read: 200 rows seen, the leaf holding one more 100-row block. -/
def stopScenarioMid : IBlockInputStream :=
  .mk .concat "limited" ["x"]
    { limits := stopLimits, info := { rows := 200, bytes := 2000, blocks := 2 } } []
    [.mk .source "leaf" ["x"]
      { info := { rows := 200, bytes := 2000, blocks := 2 } } [blkRows 100] []]

/-- The limits of the speed scenario: at least 1000 rows/second, no
warm-up, every overflow action that exists set to the silent stop. -/
def slowLimits : LocalLimits :=
  { size_limits := { max_rows := 0, max_bytes := 0,
                     overflow_mode := OverflowMode.BREAK },
    timeout_overflow_mode := OverflowMode.BREAK,
    min_execution_speed := 1000,
    timeout_before_checking_execution_speed := 0 }

/-- The speed scenario: a source with the minimum-speed limit holding one
10-row block; reading it at stopwatch time 1s yields 10 rows/s. -/
def slowScenario : IBlockInputStream :=
  .mk .source "slow" ["x"] { limits := slowLimits } [blkRows 10] []

/-- Totals scenario: leaf `A` without totals. -/
def totalsLeafA : IBlockInputStream := .mk .source "A" ["x"] {} [] []

/-- The totals block of leaf `B`. -/
def totalsBlockB : Block := ⟨["t"], 1, 8⟩

/-- Totals scenario: leaf `B` carrying totals (and extremes). -/
def totalsLeafB : IBlockInputStream :=
  .mk .source "B" ["x"] { totals := totalsBlockB, extremes := totalsBlockB } [] []

/-- Totals scenario: a root with empty own totals over `[A, B]`. -/
def totalsRoot : IBlockInputStream :=
  .mk .concat "r" ["x"] {} [] [totalsLeafA, totalsLeafB]

/-! The entropy aggregate-function factory
(`AggregateFunctions/AggregateFunctionEntropy.cpp`). -/

/-- The argument data types the factory dispatches on (`TypeIndex`). -/
inductive TypeIndex where
  | UInt8 | UInt16 | UInt32 | UInt64 | Int8 | Int16 | Int32 | Int64
  | Float32 | Float64 | Date | DateTime | String | FixedString
  | Array | Tuple | UUID
deriving Repr, DecidableEq

/-- Modelled from the spec: the types accepted by
`createWithNumericBasedType` in `AggregateFunctions/Helpers.h` (not among
the examined sources): the native numeric types plus `Date` (based on
`UInt16`) and `DateTime` (based on `UInt32`). -/
def TypeIndex.isNumericBased : TypeIndex → Bool
  | .UInt8 | .UInt16 | .UInt32 | .UInt64 => true
  | .Int8 | .Int16 | .Int32 | .Int64 => true
  | .Float32 | .Float64 => true
  | .Date | .DateTime => true
  | _ => false

/-- The aggregate function the factory returns: the specialized
implementation for a single numeric-based argument type, or the generic
`AggregateFunctionEntropy<UInt128>` otherwise. -/
inductive AggregateFunctionEntropy where
  | specialized (t : TypeIndex) (num_args : Nat)
  | generic (num_args : Nat)
deriving Repr, DecidableEq

/-- Modelled from the spec: `createWithNumericBasedType` of
`AggregateFunctions/Helpers.h` — a non-null specialized instance exactly
for a numeric-based argument type. -/
def createWithNumericBasedType (t : TypeIndex) (num_args : Nat) :
    Option AggregateFunctionEntropy :=
  if t.isNumericBased then some (.specialized t num_args) else none

/-- Modelled from the spec: `assertNoParameters` of
`AggregateFunctions/FactoryHelpers.h` (not among the examined sources) —
rejects any non-empty parameter list.  Parameter values are opaque. -/
def assertNoParameters (parameters : List Nat) : Except ErrorKind Unit :=
  if parameters.isEmpty then .ok ()
  else .error .AggregateFunctionDoesntAllowParameters

/-- `createAggregateFunctionEntropy` (source lines 18-35): reject
parameters; reject an empty argument list with
`NUMBER_OF_ARGUMENTS_DOESNT_MATCH`; for exactly one argument of
numeric-based type return the specialized implementation; otherwise the
generic implementation for `num_args` arguments. -/
def createAggregateFunctionEntropy (_name : String)
    (argument_types : List TypeIndex) (parameters : List Nat) :
    Except ErrorKind AggregateFunctionEntropy :=
  match assertNoParameters parameters with
  | .error e => .error e
  | .ok _ =>
    if argument_types.isEmpty then .error .NumberOfArgumentsDoesntMatch
    else
      match argument_types with
      | [t] =>
        match createWithNumericBasedType t 1 with
        | some res => .ok res
        | none => .ok (.generic 1)
      | _ => .ok (.generic argument_types.length)

/-- The factory as a registry of named creators. -/
abbrev AggregateFunctionFactory : Type :=
  List (String ×
    (String → List TypeIndex → List Nat → Except ErrorKind AggregateFunctionEntropy))

/-- `registerAggregateFunctionEntropy` (source lines 39-42): register the
creator under the name `entropy`. -/
def registerAggregateFunctionEntropy (factory : AggregateFunctionFactory) :
    AggregateFunctionFactory :=
  factory ++ [("entropy", createAggregateFunctionEntropy)]

/-! Theorems. -/

/-- A `read` on a node that is soft-cancelled or whose
`limit_exceeded_need_break` flag is set returns the sentinel at once,
leaving the node untouched and invoking nothing. -/
theorem read_stopped (debug : Bool) (e : Nat) (q : Bool) (op : OpKind)
    (nm : String) (hd : List String) (st : StreamState) (sc : List Block)
    (ch : List IBlockInputStream)
    (hdbg : (debug && !st.read_prefix_is_called) = false)
    (hkill : st.is_killed = false)
    (h : st.is_cancelled = true ∨ st.limit_exceeded_need_break = true) :
    IBlockInputStream.read debug e q (.mk op nm hd st sc ch)
      = ⟨.ok Block.empty, .mk op nm hd st sc ch, []⟩ := by
  rw [IBlockInputStream.read.eq_def]
  rcases h with h | h <;> simp [hdbg, hkill, h]

/-- C1.  The claim says the rejection of `read` before `readPrefix` is
present in every build; but the tracking flag `read_prefix_is_called`
exists only under `#ifndef NDEBUG` (header lines 318-321), so a release
build cannot perform the check: on a fresh source, a release-mode `read`
before any `readPrefix` succeeds and returns the first block instead of
failing with `ProtocolViolation`. -/
theorem c1_release_counterexample :
    leafA.state.read_prefix_is_called = false
    ∧ (IBlockInputStream.read false 0 true leafA).res = .ok (blkRows 100)
    ∧ (IBlockInputStream.read false 0 true leafA).res
        ≠ .error .ProtocolViolation := by
  refine ⟨rfl, rfl, ?_⟩
  intro h
  rw [show (IBlockInputStream.read false 0 true leafA).res = .ok (blkRows 100) from rfl] at h
  exact Except.noConfusion h

/-- C1 (amended).  In a debug build (one that keeps the `NDEBUG`-gated
tracking flags), calling `read` before `readPrefix` fails with
`ProtocolViolation`, for every node, without touching any state. -/
theorem c1_debug_read_requires_readPrefixCall (e : Nat) (q : Bool)
    (op : OpKind) (nm : String) (hd : List String) (st : StreamState)
    (sc : List Block) (ch : List IBlockInputStream)
    (h : st.read_prefix_is_called = false) :
    IBlockInputStream.read true e q (.mk op nm hd st sc ch)
      = ⟨.error .ProtocolViolation, .mk op nm hd st sc ch, []⟩ := by
  rw [IBlockInputStream.read.eq_def]
  simp [h]

/-- C1 witness: the amended theorem at a concrete fresh source. -/
theorem c1_witness :
    ({} : StreamState).read_prefix_is_called = false
    ∧ IBlockInputStream.read true 0 true (.mk .source "s" ["x"] {} [] [])
        = ⟨.error .ProtocolViolation, .mk .source "s" ["x"] {} [] [], []⟩ :=
  ⟨rfl, c1_debug_read_requires_readPrefixCall 0 true .source "s" ["x"] {} [] [] rfl⟩

/-- C2.  The claim says `setLimits`, `setQuota` and `enableExtremes`
propagate recursively to already-attached children; on the code they do
not: applied to a root with children `[A, B]`, the children keep default
limits, no quota and extremes disabled. -/
theorem c2_no_propagation_counterexample :
    (IBlockInputStream.setLimits stopLimits progressTree).children.map
        IBlockInputStream.getLimits = [{}, {}]
    ∧ ({} : LocalLimits) ≠ stopLimits
    ∧ (IBlockInputStream.setQuota 7 progressTree).children.map
        (fun c => c.state.quota) = [none, none]
    ∧ (IBlockInputStream.enableExtremes progressTree).children.map
        (fun c => c.state.enabled_extremes) = [false, false] := by
  refine ⟨rfl, ?_, rfl, rfl⟩
  decide

/-- C2 (amended).  `setLimits`, `setQuota` and `enableExtremes` configure
only the receiving node — each stores its value in the node's own state
and leaves the attached children entirely untouched (header lines
219-239, fully inline) — in contrast to `setProgressCallback`, whose
fan-out does reach every already-attached child. -/
theorem c2_local_configuration_only (l : LocalLimits) (qd : Nat)
    (op : OpKind) (nm : String) (hd : List String) (st : StreamState)
    (sc : List Block) (ch : List IBlockInputStream) :
    (IBlockInputStream.setLimits l (.mk op nm hd st sc ch)).getLimits = l
    ∧ (IBlockInputStream.setLimits l (.mk op nm hd st sc ch)).children = ch
    ∧ (IBlockInputStream.setQuota qd (.mk op nm hd st sc ch)).state.quota = some qd
    ∧ (IBlockInputStream.setQuota qd (.mk op nm hd st sc ch)).children = ch
    ∧ (IBlockInputStream.enableExtremes
        (.mk op nm hd st sc ch)).state.enabled_extremes = true
    ∧ (IBlockInputStream.enableExtremes (.mk op nm hd st sc ch)).children = ch
    ∧ ∀ c ∈ (IBlockInputStream.setProgressCallback (.mk op nm hd st sc ch)).children,
        c.state.has_progress_callback = true := by
  refine ⟨rfl, rfl, rfl, rfl, rfl, rfl, ?_⟩
  show ∀ c ∈ setProgressCallbackChildren ch, c.state.has_progress_callback = true
  induction ch with
  | nil => intro c hc; cases hc
  | cons c0 cs ih =>
    intro c hc
    simp only [setProgressCallbackChildren, List.mem_cons] at hc
    rcases hc with hc | hc
    · cases c0 with
      | mk op1 nm1 hd1 st1 sc1 ch1 =>
        subst hc
        rfl
    · exact ih c hc

/-- C2 witness: the amended theorem at the concrete two-child tree. -/
theorem c2_witness :
    (IBlockInputStream.setLimits stopLimits
        (.mk .concat "root" ["x"] {} [] [leafA, leafB])).children = [leafA, leafB]
    ∧ ∀ c ∈ (IBlockInputStream.setProgressCallback
        (.mk .concat "root" ["x"] {} [] [leafA, leafB])).children,
        c.state.has_progress_callback = true :=
  ⟨(c2_local_configuration_only stopLimits 7 .concat "root" ["x"] {} []
      [leafA, leafB]).2.1,
   (c2_local_configuration_only stopLimits 7 .concat "root" ["x"] {} []
      [leafA, leafB]).2.2.2.2.2.2⟩

/-- C3.  After `cancel(false)`, the next `read` returns the sentinel with
no error, no state change and no production-step invocation; after
`cancel(true)`, the next `read` fails with `QueryCancelled`.  (The node
must not have been hard-killed before, since `cancel(false)` never clears
`is_killed`.) -/
theorem c3_cancel_then_read (e : Nat) (q : Bool) (op : OpKind) (nm : String)
    (hd : List String) (st : StreamState) (sc : List Block)
    (ch : List IBlockInputStream) (hkill : st.is_killed = false) :
    IBlockInputStream.read false e q
        (IBlockInputStream.cancel false (.mk op nm hd st sc ch))
      = ⟨.ok Block.empty,
         IBlockInputStream.cancel false (.mk op nm hd st sc ch), []⟩
    ∧ (IBlockInputStream.read false e q
        (IBlockInputStream.cancel true (.mk op nm hd st sc ch))).res
      = .error .QueryCancelled := by
  constructor
  · rw [IBlockInputStream.cancel]
    exact read_stopped false e q op nm hd _ sc _ (by simp) (by simp [hkill])
      (Or.inl rfl)
  · rw [IBlockInputStream.cancel, IBlockInputStream.read.eq_def]
    simp

/-- C3 witness: the cancellation behavior at a concrete fresh source. -/
theorem c3_witness :
    IBlockInputStream.read false 0 true
        (IBlockInputStream.cancel false (.mk .source "s" ["x"] {} [blkRows 1] []))
      = ⟨.ok Block.empty,
         IBlockInputStream.cancel false (.mk .source "s" ["x"] {} [blkRows 1] []), []⟩
    ∧ (IBlockInputStream.read false 0 true
        (IBlockInputStream.cancel true (.mk .source "s" ["x"] {} [blkRows 1] []))).res
      = .error .QueryCancelled :=
  c3_cancel_then_read 0 true .source "s" ["x"] {} [blkRows 1] [] rfl

/-- C7.  `checkDepth(maxDepth)` fails with `PipelineTooDeep` exactly when
the longest root-to-leaf chain exceeds `maxDepth`, returns the measured
depth otherwise; a node with no children has depth 1, so on it
`checkDepth 1` succeeds and `checkDepth 0` fails. -/
theorem c7_checkDepth (n : IBlockInputStream) (md : Nat) :
    (n.checkDepth md = .error .PipelineTooDeep ↔ md < n.depth)
    ∧ (n.depth ≤ md → n.checkDepth md = .ok n.depth)
    ∧ ∀ (op : OpKind) (nm : String) (hd : List String) (st : StreamState)
        (sc : List Block),
        (IBlockInputStream.mk op nm hd st sc []).depth = 1
        ∧ (IBlockInputStream.mk op nm hd st sc []).checkDepth 1 = .ok 1
        ∧ (IBlockInputStream.mk op nm hd st sc []).checkDepth 0
            = .error .PipelineTooDeep := by
  have hsingle : ∀ (op : OpKind) (nm : String) (hd : List String)
      (st : StreamState) (sc : List Block),
      (IBlockInputStream.mk op nm hd st sc []).depth = 1 := by
    intro op nm hd st sc
    rw [IBlockInputStream.depth, depthChildren]
  refine ⟨?_, ?_, ?_⟩
  · unfold IBlockInputStream.checkDepth IBlockInputStream.checkDepthImpl
    split
    · simp; omega
    · simp; omega
  · intro h
    unfold IBlockInputStream.checkDepth IBlockInputStream.checkDepthImpl
    split
    · omega
    · rfl
  · intro op nm hd st sc
    refine ⟨hsingle op nm hd st sc, ?_, ?_⟩
    · unfold IBlockInputStream.checkDepth IBlockInputStream.checkDepthImpl
      rw [hsingle op nm hd st sc]
      simp
    · unfold IBlockInputStream.checkDepth IBlockInputStream.checkDepthImpl
      rw [hsingle op nm hd st sc]
      simp

/-- C7 witness: a single node has depth 1, `checkDepth 1` succeeds and
`checkDepth 0` fails; on the two-level tree, `checkDepth 1` fails. -/
theorem c7_witness :
    ((IBlockInputStream.mk .source "s" ["x"] {} [] []).depth = 1
      ∧ (IBlockInputStream.mk .source "s" ["x"] {} [] []).checkDepth 1 = .ok 1
      ∧ (IBlockInputStream.mk .source "s" ["x"] {} [] []).checkDepth 0
          = .error .PipelineTooDeep)
    ∧ progressTree.checkDepth 1 = .error .PipelineTooDeep :=
  ⟨(c7_checkDepth progressTree 1).2.2 .source "s" ["x"] {} [],
   (c7_checkDepth progressTree 1).1.mpr (by decide)⟩

/-- C10.  The entropy factory fails exactly on a non-empty parameter list
or an empty argument list (the latter with the
wrong-number-of-arguments error); otherwise it returns a function:
the numeric specialization for a single numeric-based argument, the
generic implementation in every other case. -/
theorem c10_entropy_factory (name : String) (args : List TypeIndex)
    (params : List Nat) :
    ((∃ err, createAggregateFunctionEntropy name args params = .error err)
        ↔ (params ≠ [] ∨ args = []))
    ∧ (params ≠ [] → createAggregateFunctionEntropy name args params
        = .error .AggregateFunctionDoesntAllowParameters)
    ∧ (params = [] → args = [] → createAggregateFunctionEntropy name args params
        = .error .NumberOfArgumentsDoesntMatch)
    ∧ (params = [] → ∀ t, args = [t] → t.isNumericBased = true →
        createAggregateFunctionEntropy name args params = .ok (.specialized t 1))
    ∧ (params = [] → ∀ t, args = [t] → t.isNumericBased = false →
        createAggregateFunctionEntropy name args params = .ok (.generic 1))
    ∧ (params = [] → args ≠ [] → args.length ≠ 1 →
        createAggregateFunctionEntropy name args params
          = .ok (.generic args.length)) := by
  cases params with
  | cons p ps =>
    refine ⟨⟨fun _ => Or.inl (by simp), fun _ => ⟨_, rfl⟩⟩, fun _ => rfl,
      ?_, ?_, ?_, ?_⟩ <;> intro h <;> simp at h
  | nil =>
    cases args with
    | nil =>
      refine ⟨⟨fun _ => Or.inr rfl, fun _ => ⟨_, rfl⟩⟩, ?_, fun _ _ => rfl,
        ?_, ?_, ?_⟩
      · intro h; simp at h
      · intro _ t h; simp at h
      · intro _ t h; simp at h
      · intro _ h; simp at h
    | cons t rest =>
      cases rest with
      | nil =>
        constructor
        · constructor
          · intro ⟨err, herr⟩
            unfold createAggregateFunctionEntropy assertNoParameters
              createWithNumericBasedType at herr
            simp at herr
            cases hnum : t.isNumericBased <;> simp [hnum] at herr
          · intro h
            rcases h with h | h <;> simp at h
        refine ⟨?_, ?_, ?_, ?_, ?_⟩
        · intro h; simp at h
        · intro _ h; simp at h
        · intro _ t2 ht hnum
          have : t2 = t := by
            have := List.cons.injEq t [] t2 [] ▸ ht
            simp at ht
            exact ht.symm
          subst this
          unfold createAggregateFunctionEntropy assertNoParameters
            createWithNumericBasedType
          simp [hnum]
        · intro _ t2 ht hnum
          have : t2 = t := by simp at ht; exact ht.symm
          subst this
          unfold createAggregateFunctionEntropy assertNoParameters
            createWithNumericBasedType
          simp [hnum]
        · intro _ _ hlen
          simp at hlen
      | cons t2 rest2 =>
        constructor
        · constructor
          · intro ⟨err, herr⟩
            unfold createAggregateFunctionEntropy assertNoParameters at herr
            simp at herr
          · intro h
            rcases h with h | h <;> simp at h
        refine ⟨?_, ?_, ?_, ?_, ?_⟩
        · intro h; simp at h
        · intro _ h; simp at h
        · intro _ t3 ht; simp at ht
        · intro _ t3 ht; simp at ht
        · intro _ _ _; rfl

/-- C10 witness: the factory at concrete inputs — a single numeric
argument, a single non-numeric argument, two arguments, no arguments,
and a parameterized call. -/
theorem c10_witness :
    createAggregateFunctionEntropy "entropy" [.Float64] []
      = .ok (.specialized .Float64 1)
    ∧ createAggregateFunctionEntropy "entropy" [.String] [] = .ok (.generic 1)
    ∧ createAggregateFunctionEntropy "entropy" [.Float64, .String] []
      = .ok (.generic 2)
    ∧ createAggregateFunctionEntropy "entropy" [] []
      = .error .NumberOfArgumentsDoesntMatch
    ∧ createAggregateFunctionEntropy "entropy" [.Float64] [3]
      = .error .AggregateFunctionDoesntAllowParameters :=
  ⟨(c10_entropy_factory "entropy" [.Float64] []).2.2.2.1 rfl .Float64 rfl rfl,
   (c10_entropy_factory "entropy" [.String] []).2.2.2.2.1 rfl .String rfl rfl,
   (c10_entropy_factory "entropy" [.Float64, .String] []).2.2.2.2.2 rfl
     (by decide) (by decide),
   (c10_entropy_factory "entropy" [] []).2.2.1 rfl rfl,
   (c10_entropy_factory "entropy" [.Float64] [3]).2.1 (by decide)⟩

/-- On a clean state (prefix recorded when the build checks it, not
killed, not cancelled, no pending stop), `read` is exactly the production
step followed by the bookkeeping-and-checks of `afterProduce` on a
non-sentinel candidate. -/
theorem read_clean_eq (debug : Bool) (e : Nat) (q : Bool) (op : OpKind)
    (nm : String) (hd : List String) (st : StreamState) (sc : List Block)
    (ch : List IBlockInputStream)
    (hdbg : (debug && !st.read_prefix_is_called) = false)
    (hkill : st.is_killed = false) (hcanc : st.is_cancelled = false)
    (hbrk : st.limit_exceeded_need_break = false) :
    IBlockInputStream.read debug e q (.mk op nm hd st sc ch) =
      match produceStep debug e q op sc ch with
      | (.error err, sc2, ch2, evs) => ⟨.error err, .mk op nm hd st sc2 ch2, evs⟩
      | (.ok b, sc2, ch2, evs) =>
        if b.toBool then afterProduce e q op nm hd st sc2 ch2 evs b
        else ⟨.ok b, .mk op nm hd st sc2 ch2, evs⟩ := by
  rw [IBlockInputStream.read.eq_def]
  simp only [hdbg, hkill, hcanc, hbrk, Bool.or_self, Bool.false_eq_true,
    if_false]
  cases op with
  | source =>
    cases sc with
    | nil => simp [produceStep, Block.toBool, Block.empty]
    | cons b rest => simp [produceStep]
  | concat =>
    simp only [produceStep]
    rcases hrc : readChildren debug e q ch with ⟨r, ch2, evs⟩
    cases r <;> simp

/-- When the produced block pushes the cumulative counters past a size
ceiling whose overflow action is the silent stop (`BREAK`), and no other
check fires, `afterProduce` still returns that block and merely sets
`limit_exceeded_need_break`, leaving the cancellation and protocol flags
untouched. -/
theorem afterProduce_break (e : Nat) (q : Bool) (op : OpKind) (nm : String)
    (hd : List String) (st : StreamState) (sc2 : List Block)
    (ch2 : List IBlockInputStream) (evs : List Progress) (b : Block)
    (hmode : st.limits.mode = LimitsMode.LIMITS_CURRENT)
    (hbrkmode : st.limits.size_limits.overflow_mode = OverflowMode.BREAK)
    (hexc : st.limits.size_limits.exceeded (st.info.rows + b.rows)
      (st.info.bytes + b.bytes) = true)
    (htime : st.limits.timeExceeded e = false)
    (hspeed : st.limits.speedTooSlow (st.info.rows + b.rows) e = false)
    (hquota : st.quota = none) :
    ∃ st2 evs2,
      afterProduce e q op nm hd st sc2 ch2 evs b
        = ⟨.ok b, .mk op nm hd st2 sc2 ch2, evs2⟩
      ∧ st2.limit_exceeded_need_break = true
      ∧ st2.is_killed = st.is_killed
      ∧ st2.is_cancelled = st.is_cancelled
      ∧ st2.read_prefix_is_called = st.read_prefix_is_called := by
  unfold afterProduce afterSize afterTime afterSpeed
  have h1 : sizeCheckHit (infoUpdated st b) = true := by
    simp [sizeCheckHit, infoUpdated, hmode, hexc]
  rw [h1]
  simp [infoUpdated, setBreakIf, foldExtremes, hbrkmode, htime, hspeed,
    hquota]
  cases hext : st.enabled_extremes <;> simp [hext]

/-- C4.  Under a size-limit policy with the silent-stop overflow action,
a produced block that pushes the cumulative counters past the ceiling is
still returned to the caller; the check only sets
`limit_exceeded_need_break`, and the following `read` returns the
sentinel immediately, with no state change and no production-step
invocation — the overflowing block is never retroactively discarded. -/
theorem c4_stop_overflow (debug : Bool) (e : Nat) (q : Bool) (op : OpKind)
    (nm : String) (hd : List String) (st : StreamState) (sc sc2 : List Block)
    (ch ch2 : List IBlockInputStream) (evs : List Progress) (b : Block)
    (hdbg : (debug && !st.read_prefix_is_called) = false)
    (hkill : st.is_killed = false) (hcanc : st.is_cancelled = false)
    (hbrk : st.limit_exceeded_need_break = false)
    (hprod : produceStep debug e q op sc ch = (.ok b, sc2, ch2, evs))
    (hb : b.toBool = true)
    (hmode : st.limits.mode = LimitsMode.LIMITS_CURRENT)
    (hbrkmode : st.limits.size_limits.overflow_mode = OverflowMode.BREAK)
    (hexc : st.limits.size_limits.exceeded (st.info.rows + b.rows)
      (st.info.bytes + b.bytes) = true)
    (htime : st.limits.timeExceeded e = false)
    (hspeed : st.limits.speedTooSlow (st.info.rows + b.rows) e = false)
    (hquota : st.quota = none) :
    ∃ st2 evs2,
      IBlockInputStream.read debug e q (.mk op nm hd st sc ch)
        = ⟨.ok b, .mk op nm hd st2 sc2 ch2, evs2⟩
      ∧ st2.limit_exceeded_need_break = true
      ∧ ∀ e2 q2, IBlockInputStream.read debug e2 q2 (.mk op nm hd st2 sc2 ch2)
          = ⟨.ok Block.empty, .mk op nm hd st2 sc2 ch2, []⟩ := by
  obtain ⟨st2, evs2, heq, hflag, hk, hc, hp⟩ :=
    afterProduce_break e q op nm hd st sc2 ch2 evs b hmode hbrkmode hexc
      htime hspeed hquota
  refine ⟨st2, evs2, ?_, hflag, ?_⟩
  · rw [read_clean_eq debug e q op nm hd st sc ch hdbg hkill hcanc hbrk, hprod]
    simpa [hb] using heq
  · intro e2 q2
    exact read_stopped debug e2 q2 op nm hd st2 sc2 ch2 (by rw [hp]; exact hdbg)
      (hk.trans hkill) (Or.inr hflag)

/-- C4 witness: the row-ceiling scenario (ceiling 250, stop action) at the
state right before the third read — the wrapper has seen 200 rows and the
leaf holds one more 100-row block: the third read still returns that
block (cumulative 300 > 250) and the fourth read returns the sentinel. -/
theorem c4_witness :
    ∃ st2 evs2,
      IBlockInputStream.read false 0 true stopScenarioMid
        = ⟨.ok (blkRows 100),
           .mk .concat "limited" ["x"] st2 []
             [.mk .source "leaf" ["x"]
               { info := { rows := 300, bytes := 3000, blocks := 3 } } [] []],
           evs2⟩
      ∧ st2.limit_exceeded_need_break = true
      ∧ ∀ e2 q2,
          IBlockInputStream.read false e2 q2
              (.mk .concat "limited" ["x"] st2 []
                [.mk .source "leaf" ["x"]
                  { info := { rows := 300, bytes := 3000, blocks := 3 } } [] []])
            = ⟨.ok Block.empty,
               .mk .concat "limited" ["x"] st2 []
                 [.mk .source "leaf" ["x"]
                   { info := { rows := 300, bytes := 3000, blocks := 3 } } [] []],
               []⟩ :=
  c4_stop_overflow false 0 true .concat "limited" ["x"]
    { limits := stopLimits, info := { rows := 200, bytes := 2000, blocks := 2 } }
    [] [] [.mk .source "leaf" ["x"]
            { info := { rows := 200, bytes := 2000, blocks := 2 } } [blkRows 100] []]
    [.mk .source "leaf" ["x"]
      { info := { rows := 300, bytes := 3000, blocks := 3 } } [] []]
    [] (blkRows 100) rfl rfl rfl rfl rfl rfl rfl rfl (by decide) rfl rfl rfl

/-- When the minimum-speed check fires after a produced block, and no
earlier check fails with a `THROW` action, `afterProduce` fails with
`ExecutionTooSlow`, whatever the configured overflow modes: `LocalLimits`
has no overflow action for the speed minimum. -/
theorem afterProduce_slow (e : Nat) (q : Bool) (op : OpKind) (nm : String)
    (hd : List String) (st : StreamState) (sc2 : List Block)
    (ch2 : List IBlockInputStream) (evs : List Progress) (b : Block)
    (hsize : (st.limits.mode == LimitsMode.LIMITS_CURRENT
        && st.limits.size_limits.exceeded (st.info.rows + b.rows)
             (st.info.bytes + b.bytes)) = false
      ∨ st.limits.size_limits.overflow_mode = OverflowMode.BREAK)
    (htime : st.limits.timeExceeded e = false
      ∨ st.limits.timeout_overflow_mode = OverflowMode.BREAK)
    (hslow : st.limits.speedTooSlow (st.info.rows + b.rows) e = true) :
    (afterProduce e q op nm hd st sc2 ch2 evs b).res
      = .error .ExecutionTooSlow := by
  unfold afterProduce afterSize afterTime afterSpeed
  have hsz1 : sizeCheckHit (infoUpdated st b)
      = (st.limits.mode == LimitsMode.LIMITS_CURRENT
        && st.limits.size_limits.exceeded (st.info.rows + b.rows)
             (st.info.bytes + b.bytes)) := by
    simp [sizeCheckHit, infoUpdated]
  rw [hsz1]
  cases hsz2 : (st.limits.mode == LimitsMode.LIMITS_CURRENT
      && st.limits.size_limits.exceeded (st.info.rows + b.rows)
           (st.info.bytes + b.bytes)) with
  | false =>
    cases hth : st.limits.timeExceeded e with
    | false => simp [hsz2, hth, hslow, setBreakIf, infoUpdated]
    | true =>
      have ht2 : st.limits.timeout_overflow_mode = OverflowMode.BREAK :=
        htime.resolve_left (by simp [hth])
      simp [hsz2, hth, ht2, hslow, setBreakIf, infoUpdated]
  | true =>
    have hs2 : st.limits.size_limits.overflow_mode = OverflowMode.BREAK :=
      hsize.resolve_left (by simp [hsz2])
    cases hth : st.limits.timeExceeded e with
    | false => simp [hsz2, hs2, hth, hslow, setBreakIf, infoUpdated]
    | true =>
      have ht2 : st.limits.timeout_overflow_mode = OverflowMode.BREAK :=
        htime.resolve_left (by simp [hth])
      simp [hsz2, hs2, hth, ht2, hslow, setBreakIf, infoUpdated]

/-- C6.  The claim says a too-slow stream under a stop overflow policy
returns the sentinel silently; on the code it does not: with every
overflow mode that exists set to the silent stop (`BREAK`), a 10-row
block read at stopwatch time 1s against a 1000 rows/s minimum still
fails with `ExecutionTooSlow` rather than returning the sentinel. -/
theorem c6_slow_counterexample :
    slowScenario.state.limits.timeout_overflow_mode = OverflowMode.BREAK
    ∧ slowScenario.state.limits.size_limits.overflow_mode = OverflowMode.BREAK
    ∧ (IBlockInputStream.read false 1000000 true slowScenario).res
        = .error .ExecutionTooSlow
    ∧ (IBlockInputStream.read false 1000000 true slowScenario).res
        ≠ .ok Block.empty := by
  refine ⟨rfl, rfl, rfl, ?_⟩
  intro h
  rw [show (IBlockInputStream.read false 1000000 true slowScenario).res
      = .error .ExecutionTooSlow from rfl] at h
  exact Except.noConfusion h

/-- C6 (amended).  Once past the warm-up and below the configured minimum
rows/second, the `read` that produced the block fails with
`ExecutionTooSlow` regardless of the configured overflow modes — the
speed minimum of `LocalLimits` (header lines 213-216) carries no overflow
action, so no "stop" policy for it exists — provided no earlier check
fails with a `THROW` action of its own. -/
theorem c6_min_speed_always_throws (debug : Bool) (e : Nat) (q : Bool)
    (op : OpKind) (nm : String) (hd : List String) (st : StreamState)
    (sc sc2 : List Block) (ch ch2 : List IBlockInputStream)
    (evs : List Progress) (b : Block)
    (hdbg : (debug && !st.read_prefix_is_called) = false)
    (hkill : st.is_killed = false) (hcanc : st.is_cancelled = false)
    (hbrk : st.limit_exceeded_need_break = false)
    (hprod : produceStep debug e q op sc ch = (.ok b, sc2, ch2, evs))
    (hb : b.toBool = true)
    (hsize : (st.limits.mode == LimitsMode.LIMITS_CURRENT
        && st.limits.size_limits.exceeded (st.info.rows + b.rows)
             (st.info.bytes + b.bytes)) = false
      ∨ st.limits.size_limits.overflow_mode = OverflowMode.BREAK)
    (htime : st.limits.timeExceeded e = false
      ∨ st.limits.timeout_overflow_mode = OverflowMode.BREAK)
    (hslow : st.limits.speedTooSlow (st.info.rows + b.rows) e = true) :
    (IBlockInputStream.read debug e q (.mk op nm hd st sc ch)).res
      = .error .ExecutionTooSlow := by
  rw [read_clean_eq debug e q op nm hd st sc ch hdbg hkill hcanc hbrk, hprod]
  simp only [hb, if_true]
  exact afterProduce_slow e q op nm hd st sc2 ch2 evs b hsize htime hslow

/-- C6 witness: the amended theorem at the concrete speed scenario. -/
theorem c6_witness :
    (IBlockInputStream.read false 1000000 true
        (.mk .source "slow" ["x"] { limits := slowLimits } [blkRows 10] [])).res
      = .error .ExecutionTooSlow :=
  c6_min_speed_always_throws false 1000000 true .source "slow" ["x"]
    { limits := slowLimits } [blkRows 10] [] [] [] [] (blkRows 10)
    rfl rfl rfl rfl rfl rfl (Or.inl rfl) (Or.inl rfl) (by decide)


/-- Unfolding of one `drive` round when `read` returns a non-sentinel
block. -/
theorem drive_step_block (debug : Bool) (e : Nat) (q : Bool) (fuel : Nat)
    (n n2 : IBlockInputStream) (b : Block) (evs : List Progress)
    (h : IBlockInputStream.read debug e q n = ⟨.ok b, n2, evs⟩)
    (hb : b.toBool = true) :
    drive debug e q (fuel + 1) n
      = (b :: (drive debug e q fuel n2).1, (drive debug e q fuel n2).2.1,
         evs ++ (drive debug e q fuel n2).2.2) := by
  rw [drive, h]
  simp only [hb, if_true]

/-- Unfolding of one `drive` round when `read` returns the sentinel. -/
theorem drive_step_end (debug : Bool) (e : Nat) (q : Bool) (fuel : Nat)
    (n n2 : IBlockInputStream) (b : Block) (evs : List Progress)
    (h : IBlockInputStream.read debug e q n = ⟨.ok b, n2, evs⟩)
    (hb : b.toBool = false) :
    drive debug e q (fuel + 1) n = ([], n2, evs) := by
  rw [drive, h]
  simp [hb]

/-- C5.  The default `progress` dispatch (header lines 155-160) invokes
the callback machinery only on nodes without children; consequently, in
the tree whose root has leaf children `A` (5 blocks of 100 rows) and `B`
(3 blocks of 50 rows) with the callback registered on the root, a full
drive pulls the 8 blocks and produces exactly 8 callback invocations —
five from `A` with 100-row deltas and three from `B` with 50-row deltas —
whose row deltas sum to 650, none originating from the root. -/
theorem c5_progress_from_leaves_only :
    (∀ (n : IBlockInputStream) (rows bytes : Nat),
        n.children.isEmpty = false → n.progress rows bytes = [])
    ∧ drive false 0 true 20 progressTree
        = (List.replicate 5 (blkRows 100) ++ List.replicate 3 (blkRows 50),
           c5mid 5 3,
           List.replicate 5 ⟨"A", 100, 1000⟩ ++ List.replicate 3 ⟨"B", 50, 500⟩)
    ∧ (List.replicate 5 (⟨"A", 100, 1000⟩ : Progress)
        ++ List.replicate 3 (⟨"B", 50, 500⟩ : Progress)).length = 8
    ∧ ((List.replicate 5 (⟨"A", 100, 1000⟩ : Progress)
        ++ List.replicate 3 (⟨"B", 50, 500⟩ : Progress)).map Progress.rows).sum = 650
    ∧ ∀ ev ∈ List.replicate 5 (⟨"A", 100, 1000⟩ : Progress)
        ++ List.replicate 3 (⟨"B", 50, 500⟩ : Progress),
        ev.source ≠ "root" ∧ (ev.source = "A" ∨ ev.source = "B") := by
  have s1 : IBlockInputStream.read false 0 true (c5mid 0 0)
      = ⟨.ok (blkRows 100), c5mid 1 0, [⟨"A", 100, 1000⟩]⟩ := rfl
  have s2 : IBlockInputStream.read false 0 true (c5mid 1 0)
      = ⟨.ok (blkRows 100), c5mid 2 0, [⟨"A", 100, 1000⟩]⟩ := rfl
  have s3 : IBlockInputStream.read false 0 true (c5mid 2 0)
      = ⟨.ok (blkRows 100), c5mid 3 0, [⟨"A", 100, 1000⟩]⟩ := rfl
  have s4 : IBlockInputStream.read false 0 true (c5mid 3 0)
      = ⟨.ok (blkRows 100), c5mid 4 0, [⟨"A", 100, 1000⟩]⟩ := rfl
  have s5 : IBlockInputStream.read false 0 true (c5mid 4 0)
      = ⟨.ok (blkRows 100), c5mid 5 0, [⟨"A", 100, 1000⟩]⟩ := rfl
  have s6 : IBlockInputStream.read false 0 true (c5mid 5 0)
      = ⟨.ok (blkRows 50), c5mid 5 1, [⟨"B", 50, 500⟩]⟩ := rfl
  have s7 : IBlockInputStream.read false 0 true (c5mid 5 1)
      = ⟨.ok (blkRows 50), c5mid 5 2, [⟨"B", 50, 500⟩]⟩ := rfl
  have s8 : IBlockInputStream.read false 0 true (c5mid 5 2)
      = ⟨.ok (blkRows 50), c5mid 5 3, [⟨"B", 50, 500⟩]⟩ := rfl
  have s9 : IBlockInputStream.read false 0 true (c5mid 5 3)
      = ⟨.ok Block.empty, c5mid 5 3, []⟩ := rfl
  refine ⟨?_, ?_, rfl, rfl, ?_⟩
  · intro n rows bytes h
    unfold IBlockInputStream.progress
    rw [h]
    simp
  · rw [show progressTree = c5mid 0 0 from rfl]
    rw [show (20 : Nat) = 19 + 1 from rfl,
        drive_step_block false 0 true 19 _ _ _ _ s1 (by decide)]
    rw [show (19 : Nat) = 18 + 1 from rfl,
        drive_step_block false 0 true 18 _ _ _ _ s2 (by decide)]
    rw [show (18 : Nat) = 17 + 1 from rfl,
        drive_step_block false 0 true 17 _ _ _ _ s3 (by decide)]
    rw [show (17 : Nat) = 16 + 1 from rfl,
        drive_step_block false 0 true 16 _ _ _ _ s4 (by decide)]
    rw [show (16 : Nat) = 15 + 1 from rfl,
        drive_step_block false 0 true 15 _ _ _ _ s5 (by decide)]
    rw [show (15 : Nat) = 14 + 1 from rfl,
        drive_step_block false 0 true 14 _ _ _ _ s6 (by decide)]
    rw [show (14 : Nat) = 13 + 1 from rfl,
        drive_step_block false 0 true 13 _ _ _ _ s7 (by decide)]
    rw [show (13 : Nat) = 12 + 1 from rfl,
        drive_step_block false 0 true 12 _ _ _ _ s8 (by decide)]
    rw [show (12 : Nat) = 11 + 1 from rfl,
        drive_step_end false 0 true 11 _ _ _ _ s9 (by decide)]
    rfl
  · decide

/-- C5 witness: the non-leaf gate of the default `progress` dispatch at
the concrete root (which has two children), alongside the concrete drive
trace. -/
theorem c5_witness :
    progressTree.progress 100 1000 = []
    ∧ drive false 0 true 20 progressTree
        = (List.replicate 5 (blkRows 100) ++ List.replicate 3 (blkRows 50),
           c5mid 5 3,
           List.replicate 5 ⟨"A", 100, 1000⟩ ++ List.replicate 3 ⟨"B", 50, 500⟩) :=
  ⟨c5_progress_from_leaves_only.1 progressTree 100 1000 rfl,
   c5_progress_from_leaves_only.2.1⟩

mutual

/-- When no node of a subtree carries a non-empty totals block,
`getTotals` returns the empty block. -/
theorem getTotals_none : ∀ n : IBlockInputStream,
    noTotals n = true → n.getTotals = Block.empty
  | .mk op nm hd st sc ch => by
    intro h
    rw [noTotals] at h
    rw [Bool.and_eq_true] at h
    obtain ⟨h1, h2⟩ := h
    rw [IBlockInputStream.getTotals]
    rw [Bool.not_eq_true' ] at h1
    rw [h1]
    simp only [Bool.false_eq_true, if_false]
    exact getTotalsChildren_none ch h2

/-- List version of `getTotals_none`. -/
theorem getTotalsChildren_none : ∀ l : List IBlockInputStream,
    noTotalsChildren l = true → getTotalsChildren l = Block.empty
  | [] => fun _ => rfl
  | c :: cs => by
    intro h
    rw [noTotalsChildren] at h
    rw [Bool.and_eq_true] at h
    obtain ⟨h1, h2⟩ := h
    rw [getTotalsChildren]
    rw [getTotals_none c h1]
    simp only [Block.toBool, Block.empty, List.isEmpty_nil, Bool.not_true,
      Bool.false_eq_true, if_false]
    exact getTotalsChildren_none cs h2

end

mutual

/-- When no node of a subtree carries a non-empty extremes block,
`getExtremes` returns the empty block. -/
theorem getExtremes_none : ∀ n : IBlockInputStream,
    noExtremes n = true → n.getExtremes = Block.empty
  | .mk op nm hd st sc ch => by
    intro h
    rw [noExtremes] at h
    rw [Bool.and_eq_true] at h
    obtain ⟨h1, h2⟩ := h
    rw [IBlockInputStream.getExtremes]
    rw [Bool.not_eq_true'] at h1
    rw [h1]
    simp only [Bool.false_eq_true, if_false]
    exact getExtremesChildren_none ch h2

/-- List version of `getExtremes_none`. -/
theorem getExtremesChildren_none : ∀ l : List IBlockInputStream,
    noExtremesChildren l = true → getExtremesChildren l = Block.empty
  | [] => fun _ => rfl
  | c :: cs => by
    intro h
    rw [noExtremesChildren] at h
    rw [Bool.and_eq_true] at h
    obtain ⟨h1, h2⟩ := h
    rw [getExtremesChildren]
    rw [getExtremes_none c h1]
    simp only [Block.toBool, Block.empty, List.isEmpty_nil, Bool.not_true,
      Bool.false_eq_true, if_false]
    exact getExtremesChildren_none cs h2

end

/-- C8.  `getTotals` (and likewise `getExtremes`) returns the node's own
block when non-empty; otherwise the first non-empty result among the
children in list order; and the empty block when no node of the subtree
has one.  Concretely: with empty own totals and children `[A, B]` where
only `B` has totals, the result is `B`'s totals; when both children have
totals, the first child's totals win. -/
theorem c8_totals_extremes (op : OpKind) (nm : String) (hd : List String)
    (st : StreamState) (sc : List Block) (ch : List IBlockInputStream) :
    (st.totals.toBool = true →
      (IBlockInputStream.mk op nm hd st sc ch).getTotals = st.totals)
    ∧ (st.extremes.toBool = true →
      (IBlockInputStream.mk op nm hd st sc ch).getExtremes = st.extremes)
    ∧ (∀ n : IBlockInputStream, noTotals n = true → n.getTotals = Block.empty)
    ∧ (∀ n : IBlockInputStream, noExtremes n = true → n.getExtremes = Block.empty)
    ∧ totalsRoot.getTotals = totalsBlockB
    ∧ totalsRoot.getExtremes = totalsBlockB
    ∧ (IBlockInputStream.mk .concat "r" ["x"] {} []
        [totalsLeafB,
         .mk .source "C" ["x"] { totals := ⟨["u"], 2, 9⟩ } [] []]).getTotals
      = totalsBlockB := by
  refine ⟨?_, ?_, getTotals_none, getExtremes_none, rfl, rfl, rfl⟩
  · intro h
    rw [IBlockInputStream.getTotals, h]
    rfl
  · intro h
    rw [IBlockInputStream.getExtremes, h]
    rfl

/-- C8 witness: the routing at concrete nodes — own totals win when
present; `B`'s totals surface through a root with empty own totals. -/
theorem c8_witness :
    totalsLeafB.getTotals = totalsBlockB
    ∧ totalsLeafA.getTotals = Block.empty
    ∧ totalsRoot.getTotals = totalsBlockB :=
  ⟨(c8_totals_extremes .source "B" ["x"]
      { totals := totalsBlockB, extremes := totalsBlockB } [] []).1 rfl,
   (c8_totals_extremes .source "B" ["x"]
      { totals := totalsBlockB, extremes := totalsBlockB } [] []).2.2.1
     totalsLeafA (by decide),
   (c8_totals_extremes .source "B" ["x"]
      { totals := totalsBlockB, extremes := totalsBlockB } [] []).2.2.2.2.1⟩

/-- The speed/quota/extremes stage returns either the candidate block or
an error, and its resulting stream keeps the operator, name, header,
script and children it was given. -/
theorem afterSpeed_shape (e : Nat) (q : Bool) (op : OpKind) (nm : String)
    (hd : List String) (st3 : StreamState) (sc2 : List Block)
    (ch2 : List IBlockInputStream) (evs : List Progress) (b : Block) :
    ((afterSpeed e q op nm hd st3 sc2 ch2 evs b).res = .ok b
      ∨ ∃ err, (afterSpeed e q op nm hd st3 sc2 ch2 evs b).res = .error err)
    ∧ ∃ stx, (afterSpeed e q op nm hd st3 sc2 ch2 evs b).stream
        = .mk op nm hd stx sc2 ch2 := by
  unfold afterSpeed
  split
  · exact ⟨Or.inr ⟨_, rfl⟩, _, rfl⟩
  · split
    · exact ⟨Or.inr ⟨_, rfl⟩, _, rfl⟩
    · exact ⟨Or.inl rfl, _, rfl⟩

/-- `afterProduce` returns either exactly the candidate block or an
error, and its resulting stream keeps the operator, name, header, script
and children it was given — only the node state changes. -/
theorem afterProduce_shape (e : Nat) (q : Bool) (op : OpKind) (nm : String)
    (hd : List String) (st : StreamState) (sc2 : List Block)
    (ch2 : List IBlockInputStream) (evs : List Progress) (b : Block) :
    ((afterProduce e q op nm hd st sc2 ch2 evs b).res = .ok b
      ∨ ∃ err, (afterProduce e q op nm hd st sc2 ch2 evs b).res = .error err)
    ∧ ∃ st2, (afterProduce e q op nm hd st sc2 ch2 evs b).stream
        = .mk op nm hd st2 sc2 ch2 := by
  unfold afterProduce afterSize afterTime
  split
  · exact ⟨Or.inr ⟨_, rfl⟩, _, rfl⟩
  · split
    · exact ⟨Or.inr ⟨_, rfl⟩, _, rfl⟩
    · exact afterSpeed_shape e q op nm hd _ sc2 ch2 _ b

/-- In a debug build, `read` before `readPrefix` is rejected up front
with `ProtocolViolation` and nothing changes. -/
theorem read_debug_gate (debug : Bool) (e : Nat) (q : Bool) (op : OpKind)
    (nm : String) (hd : List String) (st : StreamState) (sc : List Block)
    (ch : List IBlockInputStream)
    (h : (debug && !st.read_prefix_is_called) = true) :
    IBlockInputStream.read debug e q (.mk op nm hd st sc ch)
      = ⟨.error .ProtocolViolation, .mk op nm hd st sc ch, []⟩ := by
  rw [IBlockInputStream.read.eq_def]
  simp [h]

/-- `read` on a hard-cancelled node fails with `QueryCancelled` and
nothing changes. -/
theorem read_killed (debug : Bool) (e : Nat) (q : Bool) (op : OpKind)
    (nm : String) (hd : List String) (st : StreamState) (sc : List Block)
    (ch : List IBlockInputStream)
    (h1 : (debug && !st.read_prefix_is_called) = false)
    (h2 : st.is_killed = true) :
    IBlockInputStream.read debug e q (.mk op nm hd st sc ch)
      = ⟨.error .QueryCancelled, .mk op nm hd st sc ch, []⟩ := by
  rw [IBlockInputStream.read.eq_def]
  simp [h1, h2]

/-- Induction workhorse for schema stability, by strong induction on the
tree size: on a well-formed node, `read` only returns non-sentinel blocks
carrying the node's declared header, and it preserves well-formedness and
the header; likewise for the child-list traversal of a `concat`'s
production step. -/
theorem read_wf_aux (debug : Bool) (e : Nat) (q : Bool) :
    ∀ N : Nat,
      (∀ n : IBlockInputStream, sizeOf n < N → wfStream n = true →
        (∀ b, (IBlockInputStream.read debug e q n).res = .ok b →
            b.toBool = true → b.schema = n.headerOf)
        ∧ wfStream (IBlockInputStream.read debug e q n).stream = true
        ∧ (IBlockInputStream.read debug e q n).stream.headerOf = n.headerOf)
      ∧ (∀ (l : List IBlockInputStream) (hd : List String), sizeOf l < N →
          wfChildren l = true → (∀ c ∈ l, c.headerOf = hd) →
          (∀ b, (readChildren debug e q l).1 = .ok b → b.toBool = true →
              b.schema = hd)
          ∧ wfChildren (readChildren debug e q l).2.1 = true
          ∧ ∀ c ∈ (readChildren debug e q l).2.1, c.headerOf = hd) := by
  intro N
  induction N with
  | zero =>
    exact ⟨fun n h => absurd h (Nat.not_lt_zero _),
           fun l hd h => absurd h (Nat.not_lt_zero _)⟩
  | succ N ih =>
    obtain ⟨ihN, ihL⟩ := ih
    constructor
    · rintro ⟨op, nm, hd, st, sc, ch⟩ hsize hwf0
      have hchlt : sizeOf ch < N := by
        simp only [IBlockInputStream.mk.sizeOf_spec] at hsize
        omega
      have hwf := hwf0
      rw [wfStream.eq_def, Bool.and_eq_true, Bool.and_eq_true] at hwf
      obtain ⟨⟨hsc, hop⟩, hch⟩ := hwf
      by_cases h1 : (debug && !st.read_prefix_is_called) = true
      · rw [read_debug_gate debug e q op nm hd st sc ch h1]
        refine ⟨?_, hwf0, rfl⟩
        intro b hb
        exact absurd hb (by simp)
      · have h1' : (debug && !st.read_prefix_is_called) = false :=
          Bool.eq_false_iff.mpr h1
        by_cases h2 : st.is_killed = true
        · rw [read_killed debug e q op nm hd st sc ch h1' h2]
          refine ⟨?_, hwf0, rfl⟩
          intro b hb
          exact absurd hb (by simp)
        · have h2' : st.is_killed = false := Bool.eq_false_iff.mpr h2
          by_cases h3 : (st.is_cancelled || st.limit_exceeded_need_break) = true
          · rw [read_stopped debug e q op nm hd st sc ch h1' h2'
              (Bool.or_eq_true_iff.mp h3)]
            refine ⟨?_, hwf0, rfl⟩
            intro b hb htb
            rw [show (⟨.ok Block.empty, .mk op nm hd st sc ch, []⟩ :
              ReadResult).res = .ok Block.empty from rfl] at hb
            obtain rfl : Block.empty = b := by
              cases hb
              rfl
            simp [Block.toBool, Block.empty] at htb
          · have h3' : (st.is_cancelled || st.limit_exceeded_need_break)
                = false := Bool.eq_false_iff.mpr h3
            rw [Bool.or_eq_false_iff] at h3'
            rw [read_clean_eq debug e q op nm hd st sc ch h1' h2' h3'.1 h3'.2]
            cases op with
            | source =>
              cases sc with
              | nil =>
                simp only [produceStep]
                refine ⟨?_, ?_, rfl⟩
                · intro b hb htb
                  rw [show (if Block.empty.toBool then
                      afterProduce e q .source nm hd st [] ch [] Block.empty
                    else ⟨.ok Block.empty, .mk .source nm hd st [] ch, []⟩)
                      = ⟨.ok Block.empty, .mk .source nm hd st [] ch, []⟩
                    from rfl] at hb
                  obtain rfl : Block.empty = b := by
                    cases hb
                    rfl
                  simp [Block.toBool, Block.empty] at htb
                · rw [show (if Block.empty.toBool then
                      afterProduce e q .source nm hd st [] ch [] Block.empty
                    else ⟨.ok Block.empty, .mk .source nm hd st [] ch, []⟩)
                      = ⟨.ok Block.empty, .mk .source nm hd st [] ch, []⟩
                    from rfl]
                  rw [wfStream.eq_def, Bool.and_eq_true, Bool.and_eq_true]
                  exact ⟨⟨by simp, hop⟩, hch⟩
              | cons b rest =>
                simp only [produceStep]
                rw [List.all_cons, Bool.and_eq_true] at hsc
                obtain ⟨hb0, hrest⟩ := hsc
                by_cases hbb : b.toBool = true
                · rw [if_pos hbb]
                  obtain ⟨hres, st2, hstream⟩ :=
                    afterProduce_shape e q .source nm hd st rest ch [] b
                  refine ⟨?_, ?_, ?_⟩
                  · intro b' hb' htb'
                    rcases hres with hok | ⟨err, herr⟩
                    · rw [hok] at hb'
                      obtain rfl : b = b' := by
                        cases hb'
                        rfl
                      rw [hbb] at hb0
                      simpa using hb0
                    · rw [herr] at hb'
                      exact absurd hb' (by simp)
                  · rw [hstream, wfStream.eq_def, Bool.and_eq_true,
                      Bool.and_eq_true]
                    exact ⟨⟨hrest, hop⟩, hch⟩
                  · rw [hstream]
                    rfl
                · rw [if_neg hbb]
                  have hbf : b.toBool = false := Bool.eq_false_iff.mpr hbb
                  refine ⟨?_, ?_, rfl⟩
                  · intro b' hb' htb'
                    obtain rfl : b = b' := by
                      cases hb'
                      rfl
                    rw [hbf] at htb'
                    exact absurd htb' (by simp)
                  · rw [wfStream.eq_def, Bool.and_eq_true, Bool.and_eq_true]
                    exact ⟨⟨hrest, hop⟩, hch⟩
            | concat =>
              simp only [produceStep]
              have hhd : ∀ c ∈ ch, c.headerOf = hd := by
                intro c hc
                exact eq_of_beq (List.all_eq_true.mp hop c hc)
              obtain ⟨L1, L2, L3⟩ := ihL ch hd hchlt hch hhd
              rcases hrc : readChildren debug e q ch with ⟨r, ch2, evs⟩
              rw [hrc] at L1 L2 L3
              have hchheads : (ch2.all fun c => c.headerOf == hd) = true := by
                rw [List.all_eq_true]
                intro c hc
                exact beq_iff_eq.mpr (L3 c hc)
              cases r with
              | error err =>
                dsimp only
                refine ⟨?_, ?_, rfl⟩
                · intro b hb
                  exact absurd hb (by simp)
                · rw [wfStream.eq_def, Bool.and_eq_true, Bool.and_eq_true]
                  exact ⟨⟨hsc, hchheads⟩, L2⟩
              | ok b =>
                dsimp only
                by_cases hbb : b.toBool = true
                · rw [if_pos hbb]
                  obtain ⟨hres, st2, hstream⟩ :=
                    afterProduce_shape e q .concat nm hd st sc ch2 evs b
                  refine ⟨?_, ?_, ?_⟩
                  · intro b' hb' htb'
                    rcases hres with hok | ⟨err, herr⟩
                    · rw [hok] at hb'
                      obtain rfl : b = b' := by
                        cases hb'
                        rfl
                      exact L1 b rfl hbb
                    · rw [herr] at hb'
                      exact absurd hb' (by simp)
                  · rw [hstream, wfStream.eq_def, Bool.and_eq_true,
                      Bool.and_eq_true]
                    exact ⟨⟨hsc, hchheads⟩, L2⟩
                  · rw [hstream]
                    rfl
                · rw [if_neg hbb]
                  have hbf : b.toBool = false := Bool.eq_false_iff.mpr hbb
                  refine ⟨?_, ?_, rfl⟩
                  · intro b' hb' htb'
                    obtain rfl : b = b' := by
                      cases hb'
                      rfl
                    rw [hbf] at htb'
                    exact absurd htb' (by simp)
                  · rw [wfStream.eq_def, Bool.and_eq_true, Bool.and_eq_true]
                    exact ⟨⟨hsc, hchheads⟩, L2⟩
    · intro l hd hsize hwf hhd
      cases l with
      | nil =>
        rw [readChildren]
        refine ⟨?_, rfl, ?_⟩
        · intro b hb htb
          obtain rfl : Block.empty = b := by
            cases hb
            rfl
          simp [Block.toBool, Block.empty] at htb
        · intro c hc
          cases hc
      | cons c cs =>
        have hclt : sizeOf c < N := by
          simp only [List.cons.sizeOf_spec] at hsize
          omega
        have hcslt : sizeOf cs < N := by
          simp only [List.cons.sizeOf_spec] at hsize
          omega
        rw [wfChildren, Bool.and_eq_true] at hwf
        obtain ⟨hwc, hwcs⟩ := hwf
        have hhdc : c.headerOf = hd := hhd c (List.mem_cons_self c cs)
        have hhdcs : ∀ x ∈ cs, x.headerOf = hd :=
          fun x hx => hhd x (List.mem_cons_of_mem _ hx)
        obtain ⟨P1, P2, P3⟩ := ihN c hclt hwc
        rcases hr : IBlockInputStream.read debug e q c with ⟨rc, c2, evc⟩
        rw [hr] at P1 P2 P3
        rw [readChildren, hr]
        cases rc with
        | error err =>
          dsimp only
          refine ⟨?_, ?_, ?_⟩
          · intro b hb
            exact absurd hb (by simp)
          · rw [wfChildren, Bool.and_eq_true]
            exact ⟨P2, hwcs⟩
          · intro x hx
            rcases List.mem_cons.mp hx with rfl | hx2
            · rw [P3]
              exact hhdc
            · exact hhdcs x hx2
        | ok b =>
          dsimp only
          by_cases hbb : b.toBool = true
          · rw [if_pos hbb]
            refine ⟨?_, ?_, ?_⟩
            · intro b' hb' htb'
              obtain rfl : b = b' := by
                cases hb'
                rfl
              rw [P1 b rfl hbb]
              exact hhdc
            · rw [wfChildren, Bool.and_eq_true]
              exact ⟨P2, hwcs⟩
            · intro x hx
              rcases List.mem_cons.mp hx with rfl | hx2
              · rw [P3]
                exact hhdc
              · exact hhdcs x hx2
          · rw [if_neg hbb]
            obtain ⟨Q1, Q2, Q3⟩ := ihL cs hd hcslt hwcs hhdcs
            rcases hrcs : readChildren debug e q cs with ⟨r2, cs2, evs2⟩
            rw [hrcs] at Q1 Q2 Q3
            dsimp only
            refine ⟨?_, ?_, ?_⟩
            · intro b' hb' htb'
              exact Q1 b' hb' htb'
            · rw [wfChildren, Bool.and_eq_true]
              exact ⟨P2, Q2⟩
            · intro x hx
              rcases List.mem_cons.mp hx with rfl | hx2
              · rw [P3]
                exact hhdc
              · exact Q3 x hx2

/-- C9.  For every node whose operators honour the documented `readImpl`
contract (`wfStream`), every non-sentinel block returned by `read` has
exactly the schema of the node's declared header (`getHeader`), and this
stays true across the node's entire lifetime: `read` preserves the
contract and the header, and every block collected by a full drive of
the stream carries the declared header. -/
theorem c9_schema_stability (debug : Bool) (e : Nat) (q : Bool)
    (n : IBlockInputStream) (hwf : wfStream n = true) :
    (∀ b, (IBlockInputStream.read debug e q n).res = .ok b → b.toBool = true →
        b.schema = n.getHeader.schema)
    ∧ wfStream (IBlockInputStream.read debug e q n).stream = true
    ∧ (IBlockInputStream.read debug e q n).stream.getHeader = n.getHeader
    ∧ ∀ fuel, ∀ b ∈ (drive debug e q fuel n).1,
        b.schema = n.getHeader.schema := by
  have hmain : ∀ m : IBlockInputStream, wfStream m = true →
      (∀ b, (IBlockInputStream.read debug e q m).res = .ok b →
          b.toBool = true → b.schema = m.headerOf)
      ∧ wfStream (IBlockInputStream.read debug e q m).stream = true
      ∧ (IBlockInputStream.read debug e q m).stream.headerOf = m.headerOf :=
    fun m hm =>
      (read_wf_aux debug e q (sizeOf m + 1)).1 m (Nat.lt_succ_self _) hm
  have hdr : ∀ (fuel : Nat) (m : IBlockInputStream), wfStream m = true →
      ∀ b ∈ (drive debug e q fuel m).1, b.schema = m.headerOf := by
    intro fuel
    induction fuel with
    | zero =>
      intro m hm b hb
      rw [drive] at hb
      cases hb
    | succ f ihf =>
      intro m hm b hb
      obtain ⟨A1, A2, A3⟩ := hmain m hm
      rcases hr : IBlockInputStream.read debug e q m with ⟨r, m2, evs⟩
      rw [hr] at A1 A2 A3
      rw [drive, hr] at hb
      cases r with
      | error err => simp at hb
      | ok bb =>
        dsimp only at hb
        by_cases hbb : bb.toBool = true
        · rw [if_pos hbb] at hb
          rcases List.mem_cons.mp hb with rfl | hb2
          · exact A1 b rfl hbb
          · have hs := ihf m2 A2 b hb2
            rw [A3] at hs
            exact hs
        · rw [if_neg hbb] at hb
          cases hb
  obtain ⟨A1, A2, A3⟩ := hmain n hwf
  refine ⟨A1, A2, ?_, ?_⟩
  · simp only [IBlockInputStream.getHeader, A3]
  · intro fuel b hb
    exact hdr fuel n hwf b hb

/-- C9 witness: the schema guarantee at the concrete leaf `B`. -/
theorem c9_witness :
    wfStream leafB = true
    ∧ (blkRows 50).schema = leafB.getHeader.schema
    ∧ wfStream (IBlockInputStream.read false 0 true leafB).stream = true :=
  ⟨by decide,
   (c9_schema_stability false 0 true leafB (by decide)).1 (blkRows 50) rfl rfl,
   (c9_schema_stability false 0 true leafB (by decide)).2.1⟩
